import Mathlib

/-!
Shallow embedding of the `Twistix/meteo` downloaders
(`src/core/downloaders/arome001_downloader.py` and
`src/core/downloaders/arome_downloader.py`).

Strings are embedded as `List Char`; Python `datetime` values as the
record `DT`; the filesystem output directory as a function from file
names to optional file contents; HTTP transport outcomes as explicit
oracles.  Python exceptions are embedded as the `PRes.exn` constructor.
-/

namespace Meteo

/-- Python strings are embedded as lists of characters. -/
abbrev Str := List Char

/-- Python string `<` (lexicographic comparison by code point). -/
def strLt : Str → Str → Bool
  | [], [] => false
  | [], _ :: _ => true
  | _ :: _, [] => false
  | a :: as, b :: bs => if a < b then true else if b < a then false else strLt as bs

/-- The decimal digit character for `n` (expects `n < 10`). -/
def dc (n : Nat) : Char := Char.ofNat (48 + n)

/-- Two-digit zero-padded decimal rendering, as produced by `strftime`
field specifiers such as `%m`, `%d`, `%H`, `%M`, `%S` (expects `n < 100`). -/
def pad2 (n : Nat) : Str := [dc (n / 10), dc (n % 10)]

/-- Four-digit zero-padded decimal rendering, as produced by `strftime`
specifier `%Y` for years below 10000 (expects `n < 10000`). -/
def pad4 (n : Nat) : Str := pad2 (n / 100) ++ pad2 (n % 100)

/-- A Python `datetime` value: year, month, day, hour, minute, second. -/
structure DT where
  y : Nat
  mo : Nat
  d : Nat
  h : Nat
  mi : Nat
  s : Nat
deriving DecidableEq, Repr

/-- One step of lexicographic tuple comparison: strictly smaller on this
field decides true, strictly larger decides false, ties defer to the rest. -/
def ltThen (x y : Nat) (t : Bool) : Bool :=
  if x < y then true else if y < x then false else t

/-- Python `datetime` comparison `a < b`: lexicographic on the
(year, month, day, hour, minute, second) tuple. -/
def dtLt (a b : DT) : Bool :=
  ltThen a.y b.y (ltThen a.mo b.mo (ltThen a.d b.d (ltThen a.h b.h
    (ltThen a.mi b.mi (ltThen a.s b.s false)))))

/-- Each field fits its zero-padded width in the run-time format. -/
def wfDT (t : DT) : Prop :=
  t.y < 10000 ∧ t.mo < 100 ∧ t.d < 100 ∧ t.h < 100 ∧ t.mi < 100 ∧ t.s < 100

instance (t : DT) : Decidable (wfDT t) := by unfold wfDT; infer_instance

/-- Gregorian leap-year test, as used by Python `datetime`. -/
def isLeap (y : Nat) : Bool :=
  (y % 4 == 0 && y % 100 != 0) || y % 400 == 0

/-- Number of days of month `mo` in year `y` (Python `calendar` rules). -/
def daysInMonth (y mo : Nat) : Nat :=
  if mo = 2 then (if isLeap y then 29 else 28)
  else if mo = 4 ∨ mo = 6 ∨ mo = 9 ∨ mo = 11 then 30
  else 31

/-- The `DT` values accepted by Python `datetime` (as validated by
`datetime.strptime`): year 1..9999, valid month/day, time fields in range. -/
def validDT (t : DT) : Bool :=
  decide (1 ≤ t.y) && decide (t.y ≤ 9999) && decide (1 ≤ t.mo) && decide (t.mo ≤ 12) &&
  decide (1 ≤ t.d) && decide (t.d ≤ daysInMonth t.y t.mo) &&
  decide (t.h < 24) && decide (t.mi < 60) && decide (t.s < 60)

/-- `strftime("%Y-%m-%dT%H.%M.%SZ")`: the run-identifier format used by
both downloaders (`arome001_downloader.get_last_run` line 132 formats with
it, and the coverage ids embed run times in this shape). -/
def formatRun (t : DT) : Str :=
  pad4 t.y ++ '-' :: (pad2 t.mo ++ '-' :: (pad2 t.d ++ 'T' ::
    (pad2 t.h ++ '.' :: (pad2 t.mi ++ '.' :: (pad2 t.s ++ ['Z'])))))

/-- Decode a two-character zero-padded decimal. -/
def dec2 (a b : Char) : Nat := 10 * (a.toNat - 48) + (b.toNat - 48)

/-- Decode a four-character zero-padded decimal. -/
def dec4 (a b c d : Char) : Nat :=
  1000 * (a.toNat - 48) + 100 * (b.toNat - 48) + 10 * (c.toNat - 48) + (d.toNat - 48)

/-- `datetime.strptime(s, "%Y-%m-%dT%H.%M.%SZ")`, returning `none` where
Python raises `ValueError` (shape mismatch, non-digits, or fields out of
the ranges `datetime` accepts). -/
def parseRun (str : Str) : Option DT :=
  match str with
  | [y3, y2, y1, y0, c1, m1, m0, c2, d1, d0, c3, h1, h0, c4, i1, i0, c5, s1, s0, c6] =>
    if c1 = '-' ∧ c2 = '-' ∧ c3 = 'T' ∧ c4 = '.' ∧ c5 = '.' ∧ c6 = 'Z' ∧
        y3.isDigit ∧ y2.isDigit ∧ y1.isDigit ∧ y0.isDigit ∧
        m1.isDigit ∧ m0.isDigit ∧ d1.isDigit ∧ d0.isDigit ∧
        h1.isDigit ∧ h0.isDigit ∧ i1.isDigit ∧ i0.isDigit ∧
        s1.isDigit ∧ s0.isDigit then
      if validDT ⟨dec4 y3 y2 y1 y0, dec2 m1 m0, dec2 d1 d0,
          dec2 h1 h0, dec2 i1 i0, dec2 s1 s0⟩ then
        some ⟨dec4 y3 y2 y1 y0, dec2 m1 m0, dec2 d1 d0,
          dec2 h1 h0, dec2 i1 i0, dec2 s1 s0⟩
      else none
    else none
  | _ => none

/-! Lexicographic order on the fixed run-time format versus
chronological (`datetime`) order. -/

theorem dc_lt_iff : ∀ x, x < 10 → ∀ y, y < 10 → (dc x < dc y ↔ x < y) := by decide

theorem dc_toNat : ∀ x, x < 10 → (dc x).toNat = 48 + x := by decide

theorem dc_isDigit : ∀ x, x < 10 → (dc x).isDigit = true := by decide

theorem strLt_nil : strLt [] [] = false := rfl

theorem strLt_cons_same (c : Char) (u v : Str) : strLt (c :: u) (c :: v) = strLt u v := by
  simp [strLt]

theorem strLt_pad2_append {a b : Nat} (ha : a < 100) (hb : b < 100) (u v : Str) :
    strLt (pad2 a ++ u) (pad2 b ++ v) =
      if a < b then true else if b < a then false else strLt u v := by
  have hd : ∀ x y : Nat, x < 10 → y < 10 → ¬ x < y → ¬ y < x → dc x = dc y := by
    intro x y hx hy h1 h2
    have : x = y := by omega
    rw [this]
  simp only [pad2, List.cons_append, List.nil_append]
  rcases Nat.lt_trichotomy (a / 10) (b / 10) with h | h | h
  · have h1 : dc (a / 10) < dc (b / 10) := (dc_lt_iff _ (by omega) _ (by omega)).mpr h
    have hab : a < b := by omega
    simp [strLt, h1, hab]
  · rw [h]
    rcases Nat.lt_trichotomy (a % 10) (b % 10) with h2 | h2 | h2
    · have h1 : dc (a % 10) < dc (b % 10) := (dc_lt_iff _ (by omega) _ (by omega)).mpr h2
      have hab : a < b := by omega
      simp [strLt, h1, hab]
    · have hab : a = b := by omega
      rw [hab]
      simp [strLt]
    · have h1 : dc (b % 10) < dc (a % 10) := (dc_lt_iff _ (by omega) _ (by omega)).mpr h2
      have h1n : ¬ dc (a % 10) < dc (b % 10) := by
        rw [dc_lt_iff _ (by omega) _ (by omega)]; omega
      have hab : ¬ a < b := by omega
      have hba : b < a := by omega
      simp [strLt, h1, h1n, hab, hba]
  · have h1 : dc (b / 10) < dc (a / 10) := (dc_lt_iff _ (by omega) _ (by omega)).mpr h
    have h1n : ¬ dc (a / 10) < dc (b / 10) := by
      rw [dc_lt_iff _ (by omega) _ (by omega)]; omega
    have hab : ¬ a < b := by omega
    have hba : b < a := by omega
    simp [strLt, h1, h1n, hab, hba]

theorem strLt_pad4_append {a b : Nat} (ha : a < 10000) (hb : b < 10000) (u v : Str) :
    strLt (pad4 a ++ u) (pad4 b ++ v) =
      if a < b then true else if b < a then false else strLt u v := by
  simp only [pad4, List.append_assoc]
  rw [strLt_pad2_append (by omega) (by omega),
      strLt_pad2_append (by omega) (by omega)]
  split_ifs <;> first | rfl | (exfalso; omega)

/-- On well-formed `datetime` fields, Python string comparison of the
formatted run identifiers agrees with `datetime` comparison. -/
theorem strLt_formatRun {a b : DT} (ha : wfDT a) (hb : wfDT b) :
    strLt (formatRun a) (formatRun b) = dtLt a b := by
  obtain ⟨hay, hamo, had, hah, hami, has⟩ := ha
  obtain ⟨hby, hbmo, hbd, hbh, hbmi, hbs⟩ := hb
  simp only [formatRun]
  rw [strLt_pad4_append hay hby, strLt_cons_same,
      strLt_pad2_append hamo hbmo, strLt_cons_same,
      strLt_pad2_append had hbd, strLt_cons_same,
      strLt_pad2_append hah hbh, strLt_cons_same,
      strLt_pad2_append hami hbmi, strLt_cons_same,
      strLt_pad2_append has hbs, strLt_cons_same, strLt_nil]
  rfl

/-- Flattening a `DT` into a single natural number that orders
identically (on well-formed values). -/
def key (t : DT) : Nat :=
  ((((t.y * 100 + t.mo) * 100 + t.d) * 100 + t.h) * 100 + t.mi) * 100 + t.s

theorem ltThen_false_iff (x y : Nat) : ltThen x y false = true ↔ x < y := by
  unfold ltThen
  split_ifs with h1 h2
  · simp [h1]
  · simp [h1]
  · simp [h1]

theorem ltThen_iff {x y : Nat} {t : Bool} {M p q : Nat} (hp : p < M) (hq : q < M)
    (ht : t = true ↔ p < q) :
    ltThen x y t = true ↔ x * M + p < y * M + q := by
  unfold ltThen
  rcases Nat.lt_trichotomy x y with h | h | h
  · rw [if_pos h]
    constructor
    · intro _
      have h2 : (x + 1) * M ≤ y * M := mul_le_mul_right' (show x + 1 ≤ y from h) M
      have he : (x + 1) * M = x * M + M := by ring
      omega
    · intro _
      rfl
  · subst h
    rw [if_neg (lt_irrefl x), if_neg (lt_irrefl x), ht]
    omega
  · rw [if_neg (by omega), if_pos h]
    have h2 : (y + 1) * M ≤ x * M := mul_le_mul_right' (show y + 1 ≤ x from h) M
    have he : (y + 1) * M = y * M + M := by ring
    constructor
    · intro habs
      exact absurd habs Bool.false_ne_true
    · intro hlt
      exfalso
      omega

theorem dtLt_iff_key {a b : DT} (ha : wfDT a) (hb : wfDT b) :
    dtLt a b = true ↔ key a < key b := by
  obtain ⟨hay, hamo, had, hah, hami, has⟩ := ha
  obtain ⟨hby, hbmo, hbd, hbh, hbmi, hbs⟩ := hb
  have h1 : ltThen a.s b.s false = true ↔ a.s < b.s := ltThen_false_iff _ _
  have h2 : ltThen a.mi b.mi (ltThen a.s b.s false) = true ↔
      a.mi * 100 + a.s < b.mi * 100 + b.s := by
    have hx := ltThen_iff (x := a.mi) (y := b.mi) (M := 100)
      (show a.s < 100 from has) (show b.s < 100 from hbs) h1
    simpa using hx
  have h3 : ltThen a.h b.h (ltThen a.mi b.mi (ltThen a.s b.s false)) = true ↔
      a.h * 10000 + (a.mi * 100 + a.s) < b.h * 10000 + (b.mi * 100 + b.s) :=
    ltThen_iff (by omega) (by omega) h2
  have h4 : ltThen a.d b.d (ltThen a.h b.h (ltThen a.mi b.mi (ltThen a.s b.s false))) = true ↔
      a.d * 1000000 + (a.h * 10000 + (a.mi * 100 + a.s)) <
        b.d * 1000000 + (b.h * 10000 + (b.mi * 100 + b.s)) :=
    ltThen_iff (by omega) (by omega) h3
  have h5 : ltThen a.mo b.mo (ltThen a.d b.d (ltThen a.h b.h (ltThen a.mi b.mi
        (ltThen a.s b.s false)))) = true ↔
      a.mo * 100000000 + (a.d * 1000000 + (a.h * 10000 + (a.mi * 100 + a.s))) <
        b.mo * 100000000 + (b.d * 1000000 + (b.h * 10000 + (b.mi * 100 + b.s))) :=
    ltThen_iff (by omega) (by omega) h4
  have h6 : dtLt a b = true ↔
      a.y * 10000000000 + (a.mo * 100000000 + (a.d * 1000000 + (a.h * 10000 +
          (a.mi * 100 + a.s)))) <
        b.y * 10000000000 + (b.mo * 100000000 + (b.d * 1000000 + (b.h * 10000 +
          (b.mi * 100 + b.s)))) :=
    ltThen_iff (by omega) (by omega) h5
  exact h6.trans (by unfold key; omega)

theorem dtLt_false_iff {a b : DT} (ha : wfDT a) (hb : wfDT b) :
    dtLt a b = false ↔ key b ≤ key a := by
  have h := dtLt_iff_key ha hb
  cases hdt : dtLt a b <;> simp_all

theorem daysInMonth_le (y mo : Nat) : daysInMonth y mo ≤ 31 := by
  unfold daysInMonth
  split_ifs <;> omega

theorem validDT_wfDT {t : DT} (h : validDT t = true) : wfDT t := by
  unfold validDT at h
  simp only [Bool.and_eq_true, decide_eq_true_eq] at h
  have h31 := daysInMonth_le t.y t.mo
  exact ⟨by omega, by omega, by omega, by omega, by omega, by omega⟩

theorem formatRun_ne_nil (t : DT) : formatRun t ≠ [] := by
  simp [formatRun, pad4, pad2]

theorem dec2_dc {a : Nat} (ha : a < 100) : dec2 (dc (a / 10)) (dc (a % 10)) = a := by
  unfold dec2
  rw [dc_toNat _ (by omega), dc_toNat _ (by omega)]
  omega

theorem dec4_dc {a : Nat} (ha : a < 10000) :
    dec4 (dc (a / 100 / 10)) (dc (a / 100 % 10)) (dc (a % 100 / 10)) (dc (a % 100 % 10)) = a := by
  unfold dec4
  rw [dc_toNat _ (by omega), dc_toNat _ (by omega), dc_toNat _ (by omega), dc_toNat _ (by omega)]
  omega

/-- `strptime` inverts `strftime` on the run-time format for every
`datetime` value the library accepts. -/
theorem parseRun_formatRun {t : DT} (h : validDT t = true) : parseRun (formatRun t) = some t := by
  have hw := validDT_wfDT h
  obtain ⟨hy, hmo, hd, hh, hmi, hs⟩ := hw
  simp only [formatRun, pad4, pad2, List.cons_append, List.nil_append, parseRun]
  rw [dec4_dc hy, dec2_dc hmo, dec2_dc hd, dec2_dc hh, dec2_dc hmi, dec2_dc hs]
  have hdig : ∀ x, x < 10 → (dc x).isDigit = true := dc_isDigit
  rw [if_pos ⟨trivial, trivial, trivial, trivial, trivial, trivial,
      hdig _ (by omega), hdig _ (by omega), hdig _ (by omega), hdig _ (by omega),
      hdig _ (by omega), hdig _ (by omega), hdig _ (by omega), hdig _ (by omega),
      hdig _ (by omega), hdig _ (by omega), hdig _ (by omega), hdig _ (by omega),
      hdig _ (by omega), hdig _ (by omega)⟩, if_pos h]

/-! Coverage-id templates.  A template with exactly one run-time
placeholder is characterized by the prefix/suffix pair produced by
`coverage_id.split("{run_time}")` (`arome001_downloader.get_last_run`
line 87) or `split("{reference_time}")` (`AromeDownloader.get_latest_run`
line 30); `.format(run_time=...)` concatenates prefix, run identifier,
suffix. -/

def formatTemplate (p suf r : Str) : Str := p ++ r ++ suf

/-- `coverage_id.startswith(pattern_prefix) and coverage_id.endswith(pattern_suffix)`. -/
def matchesB (p suf cid : Str) : Bool := p.isPrefixOf cid && suf.isSuffixOf cid

/-- Python `coverage_id[len(pattern_prefix) : -len(pattern_suffix)]`:
drops the prefix length at the front and the suffix length at the back,
except that an empty suffix makes the upper bound `-0 == 0`, so the
slice is empty. -/
def pyExtract (cid p suf : Str) : Str :=
  if suf.length = 0 then []
  else (cid.drop p.length).take (cid.length - p.length - suf.length)

theorem matchesB_format (p suf r : Str) : matchesB p suf (formatTemplate p suf r) = true := by
  unfold matchesB formatTemplate
  rw [Bool.and_eq_true, List.isPrefixOf_iff_prefix, List.isSuffixOf_iff_suffix]
  constructor
  · exact ⟨r ++ suf, by simp⟩
  · exact ⟨p ++ r, by simp⟩

theorem pyExtract_format {suf : Str} (hs : suf ≠ []) (p r : Str) :
    pyExtract (formatTemplate p suf r) p suf = r := by
  unfold pyExtract formatTemplate
  rw [if_neg (by simpa using hs), List.append_assoc, List.drop_left]
  have hlen : (p ++ (r ++ suf)).length - p.length - suf.length = r.length := by
    simp only [List.length_append]
    omega
  rw [hlen, List.take_left]

/-! Transport layer.  An HTTP attempt either times out, fails in another
way (connection error, or a non-2xx status raised by
`raise_for_status`), or succeeds with a body.  A fetch is driven by an
oracle list of attempt outcomes and returns `some (waits, outcome)`
where `waits` counts the `time.sleep` backoff calls performed and
`outcome` is `some body` on success and `none` when the fetch gave up
(returning `None` or raising); the overall result is `Option.none` when
the trace ran out with the loop still retrying. -/

inductive Attempt where
  | timeout
  | fail
  | ok (body : Str)

/-- The fixed backoff argument of `time.sleep(2)` in
`arome001_downloader` (lines 40, 107, 179). -/
def backoffSeconds : Nat := 2

/-- The `while True` request loop of `arome001_downloader`
(`get_last_run` lines 100-109, and identically lines 33-42 and 172-181):
a timeout sleeps `backoffSeconds` and retries, any other
`RequestException` returns `None` at once, success breaks with the body. -/
def fetchRetry : List Attempt → Option (Nat × Option Str)
  | [] => none
  | .timeout :: rest => (fetchRetry rest).map (fun r => (r.1 + 1, r.2))
  | .fail :: _ => some (0, none)
  | .ok b :: _ => some (0, some b)

/-- The single `try/except` of `AromeDownloader` (`get_latest_run` lines
42-48, and identically lines 92-98 and 151-157): a timeout raises an
`Exception` immediately, as does any other `RequestException`; there is
no sleep and no retry. -/
def fetchOnce : List Attempt → Option (Nat × Option Str)
  | [] => none
  | .timeout :: _ => some (0, none)
  | .fail :: _ => some (0, none)
  | .ok b :: _ => some (0, some b)

theorem fetchRetry_timeouts (n : Nat) (b : Str) :
    fetchRetry (List.replicate n .timeout ++ [.ok b]) = some (n, some b) := by
  induction n with
  | zero => rfl
  | succ k ih => simp [List.replicate_succ, fetchRetry, ih]

/-! The hourly download window.  Subset timestamps are embedded as
minutes, so `timedelta(hours=1)` adds 60 and `datetime` comparison is
the order on `Nat`. -/

/-- The sequence of subset times visited by
`while current_time <= end_time: ...; current_time += timedelta(hours=1)`
(`arome001_downloader.download_run` lines 154-192,
`AromeDownloader.download_last_run` lines 134-169). -/
def subsetTimes (s e : Nat) : List Nat :=
  if h : s ≤ e then s :: subsetTimes (s + 60) e else []
termination_by e + 1 - s
decreasing_by omega

/-- One pass of the download loop body shared by both variants: for each
subset time, consult the per-hour fetch oracle (its value is the body
obtained for that hour, `none` when the fetch gave up); a failure stops
the loop immediately, a success records the written file and continues.
Returns the subset times requested in order, the `(file name, body)`
pairs written in order, and whether the loop ran to completion. -/
def fetchLoop (fetch : Nat → Option Str) (name : Nat → Str) :
    List Nat → List Nat × List (Str × Str) × Bool
  | [] => ([], [], true)
  | t :: rest =>
    match fetch t with
    | none => ([t], [], false)
    | some body =>
      let r := fetchLoop fetch name rest
      (t :: r.1, (name t, body) :: r.2.1, r.2.2)

/-! The output directory, as a map from file names to contents. -/

def Dir := Str → Option Str

def emptyDir : Dir := fun _ => none

def writeFile (d : Dir) (n b : Str) : Dir := fun m => if m = n then some b else d m

def writeFiles (fs : List (Str × Str)) (d : Dir) : Dir :=
  fs.foldl (fun d nb => writeFile d nb.1 nb.2) d

def gribExt : Str := ['.', 'g', 'r', 'i', 'b']

def runInfoName : Str := ['r', 'u', 'n', '_', 'i', 'n', 'f', 'o', '.', 'j', 's', 'o', 'n']

/-- `f"{data_type}_{reference_time}_{subset_time}.grib"`
(`AromeDownloader.download_last_run` line 160). -/
def aromeFileName (d r t : Str) : Str := d ++ '_' :: (r ++ '_' :: (t ++ gribExt))

/-- `f"{data_type}_{current_time_str}.grib"`
(`arome001_downloader.download_run` line 184): the run time is not part
of the name. -/
def arome001FileName (d t : Str) : Str := d ++ '_' :: (t ++ gribExt)

/-- The `run_info.json` record written by
`arome001_downloader.download_run` lines 194-203: run time, window
start, window end. -/
def runInfoJson (runT startT endT : Str) : Str := runT ++ ';' :: (startT ++ ';' :: endT)

/-- Outcome of resolving the coverage time window inside a download:
either the parsed inclusive `[s, e]` range in minutes, or the resolution
HTTP request failed (`_get_run_time_range` returned `None` /
`get_coverage_time_range` raised), or parsing the description crashed. -/
inductive ResolveOut where
  | range (s e : Nat)
  | transportFail
  | parseCrash

/-- Result of a Python call: a value, or an uncaught exception. -/
inductive PRes (α : Type) where
  | ok (a : α)
  | exn
deriving DecidableEq

structure A001Download where
  dir : Dir
  requests : List Nat
  files : List (Str × Str)
  outcome : PRes (Option Unit)

/-- `arome001_downloader.download_run(data_type, run_time, output_dir)`
over a prior directory state `D` (lines 135-205).  `configured` is
whether `settings["data_types"].get(data_type)` found the data type
(line 137; otherwise `return None` before anything else); when it did,
the output directory is removed and recreated empty (lines 141-144)
before the window is resolved.  A `transportFail` resolution makes line
150 unpack `None` (a `TypeError` crash) and a `parseCrash` propagates,
both after the directory was cleared.  `fetch` gives the per-subset-time
outcome of the inner retry loop (`none` when it returned `None` on a
non-timeout `RequestException`, aborting the whole run with `return
None`); `fmtT` is `strftime("%Y-%m-%dT%H:%M:%SZ")` on subset times.
After a fully successful loop the `run_info.json` record is written. -/
def download_run (configured : Bool) (resolve : ResolveOut) (fetch : Nat → Option Str)
    (dataType runT : Str) (fmtT : Nat → Str) (D : Dir) : A001Download :=
  if configured then
    match resolve with
    | .transportFail => ⟨emptyDir, [], [], .exn⟩
    | .parseCrash => ⟨emptyDir, [], [], .exn⟩
    | .range s e =>
      let r := fetchLoop fetch (fun t => arome001FileName dataType (fmtT t)) (subsetTimes s e)
      let d1 := writeFiles r.2.1 emptyDir
      if r.2.2 then
        ⟨writeFile d1 runInfoName (runInfoJson runT (fmtT s) (fmtT e)), r.1, r.2.1, .ok (some ())⟩
      else ⟨d1, r.1, r.2.1, .ok none⟩
  else ⟨D, [], [], .ok none⟩

structure AroDownload where
  dir : Dir
  requests : List Nat
  files : List (Str × Str)
  outcome : PRes Unit

/-- `AromeDownloader.download_last_run(data_type, reference_time, output_dir)`
over a prior directory state `D` (lines 114-169).  An unconfigured data
type raises `ValueError` (line 125); a failed window resolution is a
raised exception from `get_coverage_time_range`, before any file write;
files are written alongside whatever the directory already holds
(`os.makedirs(..., exist_ok=True)`, line 161 — no clearing); a failed
hourly fetch raises after the earlier files were written; no metadata
record is ever written. -/
def download_last_run (configured : Bool) (resolve : ResolveOut) (fetch : Nat → Option Str)
    (dataType runT : Str) (fmtT : Nat → Str) (D : Dir) : AroDownload :=
  if configured then
    match resolve with
    | .transportFail => ⟨D, [], [], .exn⟩
    | .parseCrash => ⟨D, [], [], .exn⟩
    | .range s e =>
      let r := fetchLoop fetch (fun t => aromeFileName dataType runT (fmtT t)) (subsetTimes s e)
      if r.2.2 then ⟨writeFiles r.2.1 D, r.1, r.2.1, .ok ()⟩
      else ⟨writeFiles r.2.1 D, r.1, r.2.1, .exn⟩
  else ⟨D, [], [], .exn⟩

/-! Window resolvers over the parsed `DescribeCoverage` response. -/

/-- The optional `gml:EnvelopeWithTimePeriod` element of the description
document: its child-element count and its optional `gml:beginPosition` /
`gml:endPosition` text nodes. -/
structure Envelope where
  childCount : Nat
  beginPos : Option Str
  endPos : Option Str

structure DescribeDoc where
  envelope : Option Envelope

/-- A window resolution ends in the begin/end strings, in a controlled
signalled failure (an explicit `raise Exception`), or in an uncontrolled
crash (`AttributeError` from dereferencing a missing element). -/
inductive ResolveRes where
  | ok (b e : Str)
  | failure
  | crash
deriving DecidableEq

/-- `AromeDownloader.get_coverage_time_range` after a successful HTTP
response (lines 101-112): `root.find` for the envelope, then `if not
envelope` — Python element truthiness, satisfied both when the element
is absent and when it has no child elements — raises a controlled
`Exception`; otherwise the position text nodes are dereferenced, an
`AttributeError` crash if one is missing. -/
def get_coverage_time_range (doc : DescribeDoc) : ResolveRes :=
  match doc.envelope with
  | none => .failure
  | some env =>
    if env.childCount = 0 then .failure
    else
      match env.beginPos, env.endPos with
      | some b, some e => .ok b e
      | _, _ => .crash

/-- `arome001_downloader._get_run_time_range` after a successful HTTP
response (lines 44-52): `root.find(...).text` on both positions with no
`None` check, so an absent envelope (or position) is an
`AttributeError` crash, not a signalled failure. -/
def get_run_time_range (doc : DescribeDoc) : ResolveRes :=
  match doc.envelope with
  | none => .crash
  | some env =>
    match env.beginPos, env.endPos with
    | some b, some e => .ok b e
    | _, _ => .crash

/-! Coverage catalog clients: discovering the latest run among the
coverage ids of the capabilities document. -/

/-- The per-coverage-id loop of `arome001_downloader.get_last_run`
(lines 118-126): each id matching prefix and suffix has its middle slice
parsed by `strptime` (a `ValueError` crash when it is not a valid run
time), and the most recent parsed run time is kept. -/
def a001Fold (p suf : Str) : List Str → Option DT → PRes (Option DT)
  | [], acc => .ok acc
  | cid :: rest, acc =>
    if matchesB p suf cid then
      match parseRun (pyExtract cid p suf) with
      | none => .exn
      | some t =>
        a001Fold p suf rest (match acc with
          | none => some t
          | some l => if dtLt l t then some t else some l)
    else a001Fold p suf rest acc

/-- `arome001_downloader.get_last_run(data_type)` (lines 78-132) after
the capabilities document has been fetched and parsed into its list of
coverage ids.  `cfg` is `settings["data_types"].get(data_type)` reduced
to the prefix/suffix split of its coverage-id template; `none` (an
unconfigured data type) returns the `None` sentinel, as does an empty
match set; otherwise the latest run time is rendered with `strftime`. -/
def get_last_run (cfg : Option (Str × Str)) (ids : List Str) : PRes (Option Str) :=
  match cfg with
  | none => .ok none
  | some (p, suf) =>
    match a001Fold p suf ids none with
    | .exn => .exn
    | .ok none => .ok none
    | .ok (some t) => .ok (some (formatRun t))

/-- The per-coverage-id loop of `AromeDownloader.get_latest_run` (lines
61-68): the middle slice is kept as a plain string and compared with
Python string `>`; `if not latest_time` also treats an empty accumulated
string as unset. -/
def aroFold (p suf : Str) : List Str → Option Str → Option Str
  | [], acc => acc
  | cid :: rest, acc =>
    if matchesB p suf cid then
      aroFold p suf rest
        (match acc with
          | none => some (pyExtract cid p suf)
          | some l =>
            if l = [] then some (pyExtract cid p suf)
            else if strLt l (pyExtract cid p suf) then some (pyExtract cid p suf) else some l)
    else aroFold p suf rest acc

/-- `AromeDownloader.get_latest_run(data_type)` (lines 18-73) after the
capabilities document has been fetched and parsed: an unconfigured data
type raises `ValueError` (line 27); when nothing matched (or only the
empty string did), line 71 raises `Exception` rather than returning a
sentinel. -/
def get_latest_run (cfg : Option (Str × Str)) (ids : List Str) : PRes Str :=
  match cfg with
  | none => .exn
  | some (p, suf) =>
    match aroFold p suf ids none with
    | none => .exn
    | some l => if l = [] then .exn else .ok l

/-- The middle slices of the coverage ids matching the prefix/suffix
pattern, in document order. -/
def matchedRuns (p suf : Str) (ids : List Str) : List Str :=
  ids.filterMap (fun cid => if matchesB p suf cid then some (pyExtract cid p suf) else none)

/-- The parsed run times of the matching coverage ids. -/
def matchedDTs (p suf : Str) (ids : List Str) : List DT :=
  (matchedRuns p suf ids).filterMap parseRun

/-- A capabilities document is well formed for a pattern when every
matching coverage id carries a valid run time between the prefix and the
suffix. -/
def WellFormedDoc (p suf : Str) (ids : List Str) : Prop :=
  ∀ cid ∈ ids, matchesB p suf cid = true →
    ∃ t, validDT t = true ∧ pyExtract cid p suf = formatRun t

/-- Keeping the larger of the accumulator and the next run time:
`if not latest_run_time or run_time > latest_run_time` (line 125). -/
def maxStep (acc : Option DT) (t : DT) : Option DT :=
  match acc with
  | none => some t
  | some l => if dtLt l t then some t else some l

/-- The pure maximum fold that `a001Fold` computes on well-formed input. -/
def maxFold : List DT → Option DT → Option DT
  | [], acc => acc
  | t :: rest, acc => maxFold rest (maxStep acc t)

theorem parseRun_valid {s : Str} {t : DT} (h : parseRun s = some t) : validDT t = true := by
  unfold parseRun at h
  split at h
  · split at h
    · split at h
      · rename_i hv
        injection h with h2
        subst h2
        exact hv
      · exact absurd h (by simp)
    · exact absurd h (by simp)
  · exact absurd h (by simp)

/-! Helper lemmas: the subset-time sequence. -/

theorem subsetTimes_closed (k : Nat) : ∀ s : Nat,
    subsetTimes s (s + 60 * k) = (List.range (k + 1)).map (fun i => s + 60 * i) := by
  induction k with
  | zero =>
    intro s
    rw [subsetTimes, dif_pos (by omega), subsetTimes, dif_neg (by omega)]
    simp [List.range_succ]
  | succ k ih =>
    intro s
    rw [subsetTimes, dif_pos (by omega), List.range_succ_eq_map]
    have he : s + 60 * (k + 1) = (s + 60) + 60 * k := by ring
    rw [he, ih (s + 60)]
    simp only [List.map_cons, List.map_map, Nat.mul_zero, Nat.add_zero, List.cons.injEq,
      true_and]
    refine List.map_congr_left ?_
    intro i _
    simp only [Function.comp_apply]
    omega

theorem subsetTimes_length (s k : Nat) : (subsetTimes s (s + 60 * k)).length = k + 1 := by
  rw [subsetTimes_closed]
  simp

theorem subsetTimes_sorted (s k : Nat) : (subsetTimes s (s + 60 * k)).Pairwise (· < ·) := by
  rw [subsetTimes_closed, List.pairwise_map]
  exact (List.pairwise_lt_range _).imp (by intro a b h; omega)

theorem subsetTimes_getLast (s k : Nat) :
    (subsetTimes s (s + 60 * k)).getLast? = some (s + 60 * k) := by
  rw [subsetTimes_closed, List.range_succ, List.map_append]
  simp

theorem subsetTimes_single (s : Nat) : subsetTimes s s = [s] := by
  have h := subsetTimes_closed 0 s
  simpa using h

/-! Helper lemmas: the download loop. -/

theorem fetchLoop_success (fetch : Nat → Option Str) (name : Nat → Str) :
    ∀ ts : List Nat, (∀ t ∈ ts, (fetch t).isSome = true) →
      fetchLoop fetch name ts = (ts, ts.map (fun t => (name t, (fetch t).getD [])), true) := by
  intro ts
  induction ts with
  | nil => intro _; rfl
  | cons t rest ih =>
    intro h
    obtain ⟨b, hb⟩ := Option.isSome_iff_exists.mp (h t (List.mem_cons_self _ _))
    simp only [fetchLoop, hb]
    rw [ih (fun x hx => h x (List.mem_cons_of_mem _ hx))]
    simp [hb]

theorem fetchLoop_failure (fetch : Nat → Option Str) (name : Nat → Str) (t0 : Nat)
    (rest : List Nat) (h0 : fetch t0 = none) :
    ∀ good : List Nat, (∀ t ∈ good, (fetch t).isSome = true) →
      fetchLoop fetch name (good ++ t0 :: rest) =
        (good ++ [t0], good.map (fun t => (name t, (fetch t).getD [])), false) := by
  intro good
  induction good with
  | nil => intro _; simp [fetchLoop, h0]
  | cons t gs ih =>
    intro h
    obtain ⟨b, hb⟩ := Option.isSome_iff_exists.mp (h t (List.mem_cons_self _ _))
    have ihh := ih (fun x hx => h x (List.mem_cons_of_mem _ hx))
    have hstep : fetchLoop fetch name ((t :: gs) ++ t0 :: rest) =
        (t :: (fetchLoop fetch name (gs ++ t0 :: rest)).1,
         (name t, b) :: (fetchLoop fetch name (gs ++ t0 :: rest)).2.1,
         (fetchLoop fetch name (gs ++ t0 :: rest)).2.2) := by
      simp [fetchLoop, hb]
    rw [hstep, ihh]
    simp [hb]

/-! Helper lemmas: directory writes. -/

/-- The content of the last write to name `n` among `fs`, if any. -/
def lookupLast : List (Str × Str) → Str → Option Str
  | [], _ => none
  | nb :: rest, n =>
    match lookupLast rest n with
    | some b => some b
    | none => if n = nb.1 then some nb.2 else none

theorem writeFiles_eq (fs : List (Str × Str)) : ∀ (d : Dir) (n : Str),
    writeFiles fs d n =
      match lookupLast fs n with
      | some b => some b
      | none => d n := by
  induction fs with
  | nil => intro d n; rfl
  | cons nb rest ih =>
    intro d n
    show writeFiles rest (writeFile d nb.1 nb.2) n = _
    rw [ih]
    cases h : lookupLast rest n with
    | some b => simp [lookupLast, h]
    | none =>
      simp only [lookupLast, h, writeFile]
      by_cases hn : n = nb.1 <;> simp [hn]

theorem writeFiles_idem (fs : List (Str × Str)) (d : Dir) :
    writeFiles fs (writeFiles fs d) = writeFiles fs d := by
  funext n
  rw [writeFiles_eq, writeFiles_eq]
  cases h : lookupLast fs n <;> rfl

theorem lookupLast_none (n : Str) :
    ∀ fs : List (Str × Str), (∀ nb ∈ fs, nb.1 ≠ n) → lookupLast fs n = none := by
  intro fs
  induction fs with
  | nil => intro _; rfl
  | cons nb rest ih =>
    intro h
    simp only [lookupLast, ih (fun x hx => h x (List.mem_cons_of_mem _ hx))]
    rw [if_neg]
    intro he
    exact h nb (List.mem_cons_self _ _) he.symm

theorem writeFiles_not_mem (fs : List (Str × Str)) (d : Dir) (n : Str)
    (h : ∀ nb ∈ fs, nb.1 ≠ n) : writeFiles fs d n = d n := by
  rw [writeFiles_eq, lookupLast_none n fs h]

/-! Helper lemmas: file names. -/

theorem endsGrib (xs : Str) : (xs ++ gribExt).getLast? = some 'b' := by
  rw [List.getLast?_eq_head?_reverse, List.reverse_append]
  simp [gribExt]

theorem arome001FileName_ne_runInfo (d t : Str) : arome001FileName d t ≠ runInfoName := by
  intro h
  have h1 : (arome001FileName d t).getLast? = some 'b' := by
    unfold arome001FileName
    rw [show d ++ '_' :: (t ++ gribExt) = (d ++ '_' :: t) ++ gribExt by
      simp [List.append_assoc]]
    exact endsGrib _
  rw [h] at h1
  exact absurd h1 (by decide)

theorem aromeFileName_ne_runInfo (d r t : Str) : aromeFileName d r t ≠ runInfoName := by
  intro h
  have h1 : (aromeFileName d r t).getLast? = some 'b' := by
    unfold aromeFileName
    rw [show d ++ '_' :: (r ++ '_' :: (t ++ gribExt)) = (d ++ '_' :: (r ++ '_' :: t)) ++ gribExt by
      simp [List.append_assoc]]
    exact endsGrib _
  rw [h] at h1
  exact absurd h1 (by decide)

theorem aromeFileName_inj {d1 r1 t1 d2 r2 t2 : Str} (hr : r1.length = r2.length)
    (ht : t1.length = t2.length) (h : aromeFileName d1 r1 t1 = aromeFileName d2 r2 t2) :
    d1 = d2 ∧ r1 = r2 ∧ t1 = t2 := by
  unfold aromeFileName at h
  have h1 := List.append_inj' h (by simp [List.length_cons, List.length_append, hr, ht])
  obtain ⟨hd, h2⟩ := h1
  injection h2 with _ h3
  have h4 := List.append_inj h3 hr
  obtain ⟨hr2, h5⟩ := h4
  injection h5 with _ h6
  have h7 := List.append_inj' h6 rfl
  exact ⟨hd, hr2, h7.1⟩

/-! Helper lemmas: the maximum fold. -/

theorem dtLt_irrefl (t : DT) : dtLt t t = false := by
  unfold dtLt ltThen
  simp

theorem maxStep_isSome (acc : Option DT) (t : DT) : (maxStep acc t).isSome = true := by
  cases acc with
  | none => rfl
  | some l =>
    show (if dtLt l t = true then some t else some l).isSome = true
    split <;> rfl

theorem maxStep_wf {acc : Option DT} {t : DT} (hacc : ∀ l, acc = some l → wfDT l)
    (ht : wfDT t) : ∀ l, maxStep acc t = some l → wfDT l := by
  intro l h
  cases acc with
  | none =>
    simp only [maxStep] at h
    injection h with h2
    subst h2
    exact ht
  | some m =>
    simp only [maxStep] at h
    split at h <;> injection h with h2 <;> subst h2
    · exact ht
    · exact hacc m rfl

theorem maxStep_valid {acc : Option DT} {t : DT}
    (hacc : ∀ l, acc = some l → validDT l = true) (ht : validDT t = true) :
    ∀ l, maxStep acc t = some l → validDT l = true := by
  intro l h
  cases acc with
  | none =>
    simp only [maxStep] at h
    injection h with h2
    subst h2
    exact ht
  | some m =>
    simp only [maxStep] at h
    split at h <;> injection h with h2 <;> subst h2
    · exact ht
    · exact hacc m rfl

theorem maxFold_wf : ∀ (ts : List DT) (acc : Option DT),
    (∀ t ∈ ts, wfDT t) → (∀ l, acc = some l → wfDT l) →
    ∀ r, maxFold ts acc = some r → wfDT r := by
  intro ts
  induction ts with
  | nil =>
    intro acc _ hacc r h
    exact hacc r h
  | cons t rest ih =>
    intro acc hts hacc r h
    exact ih (maxStep acc t) (fun x hx => hts x (List.mem_cons_of_mem _ hx))
      (maxStep_wf hacc (hts t (List.mem_cons_self _ _))) r h

theorem maxFold_isSome : ∀ (ts : List DT) (acc : Option DT), acc.isSome = true →
    (maxFold ts acc).isSome = true := by
  intro ts
  induction ts with
  | nil =>
    intro acc h
    exact h
  | cons t rest ih =>
    intro acc _
    exact ih (maxStep acc t) (maxStep_isSome acc t)

theorem maxFold_cons_isSome (t : DT) (rest : List DT) :
    (maxFold (t :: rest) none).isSome = true :=
  maxFold_isSome rest (maxStep none t) (maxStep_isSome none t)

theorem maxFold_spec : ∀ (ts : List DT) (acc : Option DT) (r : DT),
    (∀ t ∈ ts, wfDT t) → (∀ l, acc = some l → wfDT l) →
    maxFold ts acc = some r →
    (r ∈ ts ∨ acc = some r) ∧ (∀ x ∈ ts, dtLt r x = false) ∧
      (∀ l, acc = some l → dtLt r l = false) := by
  intro ts
  induction ts with
  | nil =>
    intro acc r _ _ h
    refine ⟨Or.inr h, by simp, ?_⟩
    intro l hl
    rw [hl] at h
    injection h with h2
    subst h2
    exact dtLt_irrefl l
  | cons t rest ih =>
    intro acc r hts hacc h
    have hwt : wfDT t := hts t (List.mem_cons_self _ _)
    have hacc2 : ∀ l, maxStep acc t = some l → wfDT l := maxStep_wf hacc hwt
    have hrest : ∀ x ∈ rest, wfDT x := fun x hx => hts x (List.mem_cons_of_mem _ hx)
    obtain ⟨hmem, hmax, haccle⟩ := ih (maxStep acc t) r hrest hacc2 h
    have hwr : wfDT r := maxFold_wf rest (maxStep acc t) hrest hacc2 r h
    obtain ⟨m, hm⟩ := Option.isSome_iff_exists.mp (maxStep_isSome acc t)
    have hwm : wfDT m := hacc2 m hm
    have hrm : dtLt r m = false := haccle m hm
    have hmt : dtLt r t = false := by
      cases acc with
      | none =>
        simp only [maxStep] at hm
        injection hm with h2
        subst h2
        exact hrm
      | some l =>
        have hwl : wfDT l := hacc l rfl
        simp only [maxStep] at hm
        split at hm
        · injection hm with h2
          rw [← h2] at hrm
          exact hrm
        · rename_i hlt
          injection hm with h2
          have hfalse : dtLt l t = false := by
            cases hb : dtLt l t
            · rfl
            · exact absurd hb hlt
          have h1 : key t ≤ key l := (dtLt_false_iff hwl hwt).mp hfalse
          have h2' : key l ≤ key r := by
            rw [h2]
            exact (dtLt_false_iff hwr hwm).mp hrm
          exact (dtLt_false_iff hwr hwt).mpr (by omega)
    refine ⟨?_, ?_, ?_⟩
    · cases hmem with
      | inl h1 => exact Or.inl (List.mem_cons_of_mem _ h1)
      | inr h1 =>
        cases acc with
        | none =>
          simp only [maxStep] at h1
          injection h1 with h2
          rw [← h2]
          exact Or.inl (List.mem_cons_self _ _)
        | some l =>
          simp only [maxStep] at h1
          split at h1
          · injection h1 with h2
            rw [← h2]
            exact Or.inl (List.mem_cons_self _ _)
          · injection h1 with h2
            exact Or.inr (by rw [h2])
    · intro x hx
      rcases List.mem_cons.mp hx with h1 | h1
      · subst h1
        exact hmt
      · exact hmax x h1
    · intro l hl
      have hwl : wfDT l := hacc l hl
      rw [hl] at hm
      simp only [maxStep] at hm
      split at hm
      · rename_i hlt
        injection hm with h2
        have h1 : key l < key t := (dtLt_iff_key hwl hwt).mp hlt
        have h2' : key t ≤ key r := (dtLt_false_iff hwr hwt).mp hmt
        exact (dtLt_false_iff hwr hwl).mpr (by omega)
      · injection hm with h2
        rw [← h2] at hrm
        exact hrm

/-! Helper lemmas: the catalog folds compute the maximum fold. -/

theorem WellFormedDoc_tail {p suf cid : Str} {rest : List Str}
    (h : WellFormedDoc p suf (cid :: rest)) : WellFormedDoc p suf rest :=
  fun c hc hm => h c (List.mem_cons_of_mem _ hc) hm

theorem a001Fold_eq (p suf : Str) : ∀ ids : List Str, WellFormedDoc p suf ids →
    ∀ acc, a001Fold p suf ids acc = .ok (maxFold (matchedDTs p suf ids) acc) := by
  intro ids
  induction ids with
  | nil =>
    intro _ acc
    rfl
  | cons cid rest ih =>
    intro hwf acc
    by_cases hm : matchesB p suf cid = true
    · obtain ⟨t, hv, he⟩ := hwf cid (List.mem_cons_self _ _) hm
      have hp : parseRun (pyExtract cid p suf) = some t := by
        rw [he]
        exact parseRun_formatRun hv
      have hd : matchedDTs p suf (cid :: rest) = t :: matchedDTs p suf rest := by
        simp only [matchedDTs, matchedRuns, List.filterMap_cons, hm, if_true, hp]
      rw [hd]
      simp only [a001Fold, hm, if_true, hp]
      exact ih (WellFormedDoc_tail hwf) (maxStep acc t)
    · have hd : matchedDTs p suf (cid :: rest) = matchedDTs p suf rest := by
        simp [matchedDTs, matchedRuns, List.filterMap_cons, hm]
      rw [hd]
      simp only [a001Fold, hm, if_false]
      exact ih (WellFormedDoc_tail hwf) acc

theorem matchedRuns_nomatch (p suf : Str) : ∀ ids : List Str,
    (∀ cid ∈ ids, matchesB p suf cid = false) → matchedRuns p suf ids = [] := by
  intro ids
  induction ids with
  | nil =>
    intro _
    rfl
  | cons cid rest ih =>
    intro h
    simp only [matchedRuns, List.filterMap_cons, h cid (List.mem_cons_self _ _)]
    exact ih (fun x hx => h x (List.mem_cons_of_mem _ hx))

theorem maxStep_map_formatRun {acc : Option DT} {t : DT}
    (hacc : ∀ l, acc = some l → validDT l = true) (hv : validDT t = true) :
    (match acc.map formatRun with
      | none => some (formatRun t)
      | some l =>
        if l = [] then some (formatRun t)
        else if strLt l (formatRun t) then some (formatRun t) else some l) =
      (maxStep acc t).map formatRun := by
  cases acc with
  | none => rfl
  | some m =>
    have hvm : validDT m = true := hacc m rfl
    simp only [Option.map_some', maxStep]
    rw [if_neg (formatRun_ne_nil m),
      strLt_formatRun (validDT_wfDT hvm) (validDT_wfDT hv)]
    cases hdt : dtLt m t <;> simp [hdt]

theorem aroFold_eq (p suf : Str) (hs : suf ≠ []) :
    ∀ ts : List DT, (∀ t ∈ ts, validDT t = true) →
      ∀ acc : Option DT, (∀ l, acc = some l → validDT l = true) →
        aroFold p suf (ts.map (fun t => formatTemplate p suf (formatRun t)))
            (acc.map formatRun) =
          (maxFold ts acc).map formatRun := by
  intro ts
  induction ts with
  | nil =>
    intro _ acc _
    rfl
  | cons t rest ih =>
    intro hts acc hacc
    have hv : validDT t = true := hts t (List.mem_cons_self _ _)
    simp only [List.map_cons, aroFold, matchesB_format, if_true, pyExtract_format hs]
    rw [maxStep_map_formatRun hacc hv]
    exact ih (fun x hx => hts x (List.mem_cons_of_mem _ hx)) (maxStep acc t)
      (maxStep_valid hacc hv)

theorem matchedDTs_map (p suf : Str) (hs : suf ≠ []) :
    ∀ ts : List DT, (∀ t ∈ ts, validDT t = true) →
      matchedDTs p suf (ts.map (fun t => formatTemplate p suf (formatRun t))) = ts := by
  intro ts
  induction ts with
  | nil =>
    intro _
    rfl
  | cons t rest ih =>
    intro hts
    have hv : validDT t = true := hts t (List.mem_cons_self _ _)
    simp only [matchedDTs, matchedRuns, List.map_cons, List.filterMap_cons, matchesB_format,
      if_true, pyExtract_format hs, parseRun_formatRun hv]
    exact congrArg (t :: ·) (ih (fun x hx => hts x (List.mem_cons_of_mem _ hx)))

theorem aroFold_nomatch (p suf : Str) : ∀ ids : List Str,
    (∀ cid ∈ ids, matchesB p suf cid = false) → ∀ acc, aroFold p suf ids acc = acc := by
  intro ids
  induction ids with
  | nil =>
    intro _ acc
    rfl
  | cons cid rest ih =>
    intro h acc
    simp only [aroFold, h cid (List.mem_cons_self _ _), Bool.false_eq_true, if_false]
    exact ih (fun x hx => h x (List.mem_cons_of_mem _ hx)) acc

theorem matchedDTs_wf (p suf : Str) (ids : List Str) :
    ∀ x ∈ matchedDTs p suf ids, wfDT x := by
  intro x hx
  unfold matchedDTs at hx
  obtain ⟨s, _, hp⟩ := List.mem_filterMap.mp hx
  exact validDT_wfDT (parseRun_valid hp)

theorem fetchLoop_files_names (fetch : Nat → Option Str) (name : Nat → Str) :
    ∀ (ts : List Nat), ∀ nb ∈ (fetchLoop fetch name ts).2.1, ∃ t, nb.1 = name t := by
  intro ts
  induction ts with
  | nil =>
    intro nb hnb
    exact absurd hnb (by simp [fetchLoop])
  | cons t rest ih =>
    intro nb hnb
    cases hf : fetch t with
    | none =>
      rw [show fetchLoop fetch name (t :: rest) = ([t], [], false) from by
        simp [fetchLoop, hf]] at hnb
      exact absurd hnb (by simp)
    | some b =>
      rw [show (fetchLoop fetch name (t :: rest)).2.1 =
          (name t, b) :: (fetchLoop fetch name rest).2.1 from by
        simp [fetchLoop, hf]] at hnb
      rcases List.mem_cons.mp hnb with h1 | h1
      · exact ⟨t, by rw [h1]⟩
      · exact ih nb h1

/-! The claims. -/

/-- Claim C2 (confirmed): for every coverage window `[s, e]` with `e - s` a
non-negative whole-hour multiple (`e = s + 60k` minutes) and every hourly
fetch succeeding, both download operations issue exactly `k + 1` subset
requests, one per hour (the i-th at `s + 60i`), in strictly increasing time
order, with the final request exactly at `e`; a window with `start = end`
yields exactly one request. -/
theorem claim2_window_requests (s k : Nat) (fetch : Nat → Option Str) (dT rT : Str)
    (fmtT : Nat → Str) (D : Dir)
    (hfetch : ∀ t ∈ subsetTimes s (s + 60 * k), (fetch t).isSome = true) :
    (download_run true (.range s (s + 60 * k)) fetch dT rT fmtT D).requests =
        subsetTimes s (s + 60 * k) ∧
      (download_last_run true (.range s (s + 60 * k)) fetch dT rT fmtT D).requests =
        subsetTimes s (s + 60 * k) ∧
      subsetTimes s (s + 60 * k) = (List.range (k + 1)).map (fun i => s + 60 * i) ∧
      (subsetTimes s (s + 60 * k)).length = k + 1 ∧
      (subsetTimes s (s + 60 * k)).Pairwise (· < ·) ∧
      (subsetTimes s (s + 60 * k)).getLast? = some (s + 60 * k) ∧
      subsetTimes s s = [s] := by
  have h1 := fetchLoop_success fetch (fun t => arome001FileName dT (fmtT t)) _ hfetch
  have h2 := fetchLoop_success fetch (fun t => aromeFileName dT rT (fmtT t)) _ hfetch
  refine ⟨?_, ?_, subsetTimes_closed k s, subsetTimes_length s k, subsetTimes_sorted s k,
    subsetTimes_getLast s k, subsetTimes_single s⟩
  · simp [download_run, h1]
  · simp [download_last_run, h2]

/-- Claim C2 witness: the window `[0, 60]` (one hour) produces the two requests
`[0, 60]`. -/
theorem claim2_witness :
    (download_run true (.range 0 (0 + 60 * 1)) (fun _ => some ['x']) ['d'] ['r']
        (fun _ => ['t']) emptyDir).requests = subsetTimes 0 (0 + 60 * 1) ∧
      subsetTimes 0 (0 + 60 * 1) = [0, 60] := by
  refine ⟨(claim2_window_requests 0 1 (fun _ => some ['x']) ['d'] ['r'] (fun _ => ['t'])
    emptyDir (fun t _ => rfl)).1, ?_⟩
  rw [subsetTimes_closed]
  decide

/-- Claim C3, counterexample: in `AromeDownloader` a single timeout followed by
an available success aborts with an error after zero backoff waits — the claim
requires one backoff wait, a success and never an error for every request
issued through the transport layer. -/
theorem claim3_counterexample :
    fetchOnce [.timeout, .ok ['x']] = some (0, none) ∧
      fetchOnce [.timeout, .ok ['x']] ≠ some (1, some ['x']) := by decide

/-- Claim C3 (amended): the `arome001_downloader` transport loop retries
timeouts indefinitely — `N` consecutive timeouts then a success yield exactly
`N` fixed-backoff sleeps (each of `backoffSeconds = 2`) and the successful
body, for every `N`, never an error — and any other transport failure or
non-2xx status aborts immediately with no wait and no retry; the
`AromeDownloader` transport instead aborts on the first timeout as well. -/
theorem claim3_transport_retry (n : Nat) (b : Str) (rest : List Attempt) :
    fetchRetry (List.replicate n .timeout ++ [.ok b]) = some (n, some b) ∧
      fetchRetry (.fail :: rest) = some (0, none) ∧
      fetchOnce (.timeout :: rest) = some (0, none) ∧
      fetchOnce (.fail :: rest) = some (0, none) ∧
      backoffSeconds = 2 :=
  ⟨fetchRetry_timeouts n b, rfl, rfl, rfl, rfl⟩

/-- Claim C4 (confirmed): for a template splitting into a non-empty prefix and
suffix around its single placeholder, formatting with any run identifier
produces an id that matches the pattern, and re-extracting by prefix/suffix
stripping recovers the original identifier. -/
theorem claim4_roundtrip (p suf r : Str) (hp : p ≠ []) (hs : suf ≠ []) :
    matchesB p suf (formatTemplate p suf r) = true ∧
      pyExtract (formatTemplate p suf r) p suf = r :=
  ⟨matchesB_format p suf r, pyExtract_format hs p r⟩

/-- Claim C4 witness: prefix `"A"`, suffix `"B"`, identifier `"r1"`. -/
theorem claim4_witness :
    matchesB ['A'] ['B'] (formatTemplate ['A'] ['B'] ['r', '1']) = true ∧
      pyExtract (formatTemplate ['A'] ['B'] ['r', '1']) ['A'] ['B'] = ['r', '1'] :=
  claim4_roundtrip ['A'] ['B'] ['r', '1'] (by decide) (by decide)

/-- Claim C7, counterexample: on a description response without the
time-period envelope, `arome001_downloader._get_run_time_range` dereferences
the missing element and crashes (`AttributeError`) instead of signalling
a failure. -/
theorem claim7_counterexample :
    get_run_time_range ⟨none⟩ = .crash ∧ get_run_time_range ⟨none⟩ ≠ .failure := by decide

/-- Claim C7 (amended): when the description response lacks the time-period
envelope, `AromeDownloader.get_coverage_time_range` signals a controlled
failure (`raise Exception`), while `arome001_downloader._get_run_time_range`
crashes uncontrolled with an `AttributeError`. -/
theorem claim7_envelope_missing (doc : DescribeDoc) (h : doc.envelope = none) :
    get_coverage_time_range doc = .failure ∧ get_run_time_range doc = .crash := by
  constructor <;> simp [get_coverage_time_range, get_run_time_range, h]

/-- Claim C7 witness: the document with no envelope element. -/
theorem claim7_witness :
    get_coverage_time_range ⟨none⟩ = .failure ∧ get_run_time_range ⟨none⟩ = .crash :=
  claim7_envelope_missing ⟨none⟩ rfl

/-- Claim C9 (confirmed): running either download twice with identical
arguments (same data type, run, resolved window, per-hour responses), the
second time over the directory produced by the first, leaves exactly the
directory of the first run: the directory transform of each variant is
idempotent — `arome001_downloader` clears and deterministically rewrites,
`AromeDownloader` overwrites the same names with the same bodies. -/
theorem claim9_idempotent (conf : Bool) (res : ResolveOut) (fetch : Nat → Option Str)
    (dT rT : Str) (fmtT : Nat → Str) (D : Dir) :
    (download_run conf res fetch dT rT fmtT
        ((download_run conf res fetch dT rT fmtT D).dir)).dir =
      (download_run conf res fetch dT rT fmtT D).dir ∧
    (download_last_run conf res fetch dT rT fmtT
        ((download_last_run conf res fetch dT rT fmtT D).dir)).dir =
      (download_last_run conf res fetch dT rT fmtT D).dir := by
  constructor
  · cases conf with
    | false => rfl
    | true => cases res <;> rfl
  · cases conf with
    | false => rfl
    | true =>
      cases res with
      | transportFail => rfl
      | parseCrash => rfl
      | range s e =>
        simp only [download_last_run]
        cases hc : (fetchLoop fetch (fun t => aromeFileName dT rT (fmtT t))
            (subsetTimes s e)).2.2 <;>
          simp [hc, writeFiles_idem]

/-- Claim C10 (confirmed): `arome001_downloader.download_run` returns the
`None` sentinel and leaves the filesystem untouched when the data type is not
configured; for a configured data type the result never depends on the prior
directory contents (they are destroyed before any request), and when window
resolution fails by transport failure or parse crash the run dies by
exception with no requests issued and the directory left completely empty —
stripped of all prior contents and holding no metadata record. -/
theorem claim10_frame (res : ResolveOut) (fetch : Nat → Option Str) (dT rT : Str)
    (fmtT : Nat → Str) (D D2 : Dir) :
    download_run false res fetch dT rT fmtT D = ⟨D, [], [], .ok none⟩ ∧
      download_run true res fetch dT rT fmtT D = download_run true res fetch dT rT fmtT D2 ∧
      ((res = .transportFail ∨ res = .parseCrash) →
        (download_run true res fetch dT rT fmtT D).dir = emptyDir ∧
          (download_run true res fetch dT rT fmtT D).requests = [] ∧
          (download_run true res fetch dT rT fmtT D).outcome = .exn) := by
  refine ⟨rfl, ?_, ?_⟩
  · cases res <;> rfl
  · intro h
    rcases h with h | h <;> subst h <;> exact ⟨rfl, rfl, rfl⟩

/-- Claim C10 witness: a failed resolution over a pre-populated directory
leaves the empty directory, no requests and an exception, and an
unconfigured data type leaves the directory untouched. -/
theorem claim10_witness :
    (download_run true .transportFail (fun _ => none) ['d'] ['r'] (fun _ => ['t'])
        (writeFile emptyDir ['o'] ['x'])).dir = emptyDir ∧
      download_run false .transportFail (fun _ => none) ['d'] ['r'] (fun _ => ['t'])
          (writeFile emptyDir ['o'] ['x']) =
        ⟨writeFile emptyDir ['o'] ['x'], [], [], .ok none⟩ := by
  have h := claim10_frame .transportFail (fun _ => none) ['d'] ['r'] (fun _ => ['t'])
    (writeFile emptyDir ['o'] ['x']) emptyDir
  exact ⟨(h.2.2 (Or.inl rfl)).1, h.1⟩

/-- Claim C1, counterexample: `AromeDownloader.get_latest_run` on a
capabilities document where no coverage id matches raises an exception — a
fatal error — where the claim requires the NotFound/None sentinel as a
normal non-fatal outcome for both latest-run operations. -/
theorem claim1_counterexample :
    get_latest_run (some (['R'], ['P'])) [] = .exn := by decide

/-- Claim C1 (amended): for every well-formed capabilities document,
`arome001_downloader.get_last_run` returns the chronologically maximal run
time among the coverage ids matching the template's prefix and suffix
(rendered back with `strftime`), and returns the `None` sentinel as a normal
outcome when the data type is not configured or when no id matches;
`AromeDownloader.get_latest_run`, however, raises an exception instead of
returning a sentinel when nothing matches. -/
theorem claim1_latest_run (p suf : Str) (ids : List Str) (hwf : WellFormedDoc p suf ids) :
    get_last_run none ids = .ok none ∧
      ((∀ cid ∈ ids, matchesB p suf cid = false) →
        get_last_run (some (p, suf)) ids = .ok none) ∧
      (matchedDTs p suf ids ≠ [] →
        ∃ tmax, get_last_run (some (p, suf)) ids = .ok (some (formatRun tmax)) ∧
          tmax ∈ matchedDTs p suf ids ∧
          ∀ x ∈ matchedDTs p suf ids, dtLt tmax x = false) ∧
      ((∀ cid ∈ ids, matchesB p suf cid = false) →
        get_latest_run (some (p, suf)) ids = .exn) := by
  have hfold := a001Fold_eq p suf ids hwf none
  refine ⟨rfl, ?_, ?_, ?_⟩
  · intro h
    have h1 : matchedDTs p suf ids = [] := by
      unfold matchedDTs
      rw [matchedRuns_nomatch p suf ids h]
      rfl
    simp only [get_last_run, hfold, h1, maxFold]
  · intro hne
    cases hM : matchedDTs p suf ids with
    | nil => exact absurd hM hne
    | cons t rest =>
      obtain ⟨tmax, hmax⟩ := Option.isSome_iff_exists.mp (maxFold_cons_isSome t rest)
      have hwfs : ∀ x ∈ (t :: rest), wfDT x := by
        rw [← hM]
        exact matchedDTs_wf p suf ids
      obtain ⟨hmem, hmaxle, -⟩ := maxFold_spec (t :: rest) none tmax hwfs
        (fun l hl => absurd hl (by simp)) hmax
      refine ⟨tmax, ?_, ?_, ?_⟩
      · simp only [get_last_run, hfold, hM, hmax]
      · rcases hmem with h1 | h1
        · exact h1
        · exact absurd h1 (by simp)
      · exact hmaxle
  · intro h
    have ha := aroFold_nomatch p suf ids h none
    simp only [get_latest_run, ha]

/-- Claim C1 witness: a nonempty capabilities document whose single
coverage id does not match the pattern: the `arome001` client returns the
sentinel, the `AromeDownloader` client raises. -/
theorem claim1_witness :
    get_last_run (some (['R'], ['P'])) [['Z']] = .ok none ∧
      get_latest_run (some (['R'], ['P'])) [['Z']] = .exn := by
  have hnm : ∀ cid ∈ [['Z']], matchesB ['R'] ['P'] cid = false := by
    intro cid hc
    simp only [List.mem_singleton] at hc
    subst hc
    decide
  have h := claim1_latest_run ['R'] ['P'] [['Z']]
    (fun cid hc hm => absurd hm (by
      simp only [List.mem_singleton] at hc
      subst hc
      decide))
  exact ⟨h.2.1 hnm, h.2.2.2 hnm⟩

/-- Claim C5, counterexample: a successful one-hour `arome001` download
writes its body under `{data_type}_{subset_time}.grib`, which differs from
the claimed `{data_type}_{run_time}_{subset_time}.grib` name. -/
theorem claim5_counterexample :
    (download_run true (.range 0 0) (fun _ => some ['x']) ['d'] ['r'] (fun _ => ['t'])
        emptyDir).files = [(arome001FileName ['d'] ['t'], ['x'])] ∧
      arome001FileName ['d'] ['t'] ≠ aromeFileName ['d'] ['r'] ['t'] := by
  constructor
  · simp [download_run, subsetTimes_single, fetchLoop]
  · decide

/-- Claim C5 (amended): `AromeDownloader.download_last_run` writes each
response body to `{data_type}_{run_time}_{subset_time}.grib`, a naming that
is collision-free across data types, runs and hours given the fixed-width
timestamp fields; `arome001_downloader.download_run` instead writes
`{data_type}_{subset_time}.grib`, omitting the run identifier from the
name. -/
theorem claim5_file_names (s k : Nat) (fetch : Nat → Option Str) (dT rT : Str)
    (fmtT : Nat → Str) (D : Dir)
    (hfetch : ∀ t ∈ subsetTimes s (s + 60 * k), (fetch t).isSome = true) :
    (download_last_run true (.range s (s + 60 * k)) fetch dT rT fmtT D).files =
        (subsetTimes s (s + 60 * k)).map
          (fun t => (aromeFileName dT rT (fmtT t), (fetch t).getD [])) ∧
      (download_run true (.range s (s + 60 * k)) fetch dT rT fmtT D).files =
        (subsetTimes s (s + 60 * k)).map
          (fun t => (arome001FileName dT (fmtT t), (fetch t).getD [])) ∧
      ∀ d1 r1 t1 d2 r2 t2 : Str, r1.length = r2.length → t1.length = t2.length →
        aromeFileName d1 r1 t1 = aromeFileName d2 r2 t2 → d1 = d2 ∧ r1 = r2 ∧ t1 = t2 := by
  have h1 := fetchLoop_success fetch (fun t => arome001FileName dT (fmtT t)) _ hfetch
  have h2 := fetchLoop_success fetch (fun t => aromeFileName dT rT (fmtT t)) _ hfetch
  refine ⟨by simp [download_last_run, h2], by simp [download_run, h1], ?_⟩
  intro d1 r1 t1 d2 r2 t2 hr ht h
  exact aromeFileName_inj hr ht h

/-- Claim C5 witness: a one-request window writes its body under the
three-part `AromeDownloader` name. -/
theorem claim5_witness :
    (download_last_run true (.range 0 (0 + 60 * 0)) (fun _ => some ['x']) ['d'] ['r']
        (fun _ => ['t']) emptyDir).files =
      (subsetTimes 0 (0 + 60 * 0)).map
        (fun _ => (aromeFileName ['d'] ['r'] ['t'], ['x'])) :=
  (claim5_file_names 0 0 (fun _ => some ['x']) ['d'] ['r'] (fun _ => ['t']) emptyDir
    (fun t _ => rfl)).1

/-- Claim C6, counterexample: a fully successful
`AromeDownloader.download_last_run` completes while writing no metadata
record at all, where the claim requires a RunMetadata record exactly when
every hourly fetch succeeded. -/
theorem claim6_counterexample :
    (download_last_run true (.range 0 0) (fun _ => some ['x']) ['d'] ['r']
        (fun _ => ['t']) emptyDir).outcome = .ok () ∧
      (download_last_run true (.range 0 0) (fun _ => some ['x']) ['d'] ['r']
          (fun _ => ['t']) emptyDir).dir runInfoName = none := by
  have hs : subsetTimes 0 0 = [0] := subsetTimes_single 0
  constructor
  · simp [download_last_run, hs, fetchLoop]
  · simp only [download_last_run, hs]
    decide

/-- Claim C6 (amended): `arome001_downloader.download_run` writes the
`run_info.json` record (run time, window start, window end) exactly when
every hourly fetch succeeded, overwriting any prior record at that name; on
the first failed hourly fetch the run aborts — the failing request is the
last one issued, the outcome is the `None` sentinel, and no metadata record
exists in the cleared directory. `AromeDownloader.download_last_run` never
writes a metadata record, leaving whatever the directory held at that
name. -/
theorem claim6_metadata (s k : Nat) (fetch : Nat → Option Str) (dT rT : Str)
    (fmtT : Nat → Str) (D : Dir) :
    ((∀ t ∈ subsetTimes s (s + 60 * k), (fetch t).isSome = true) →
        (download_run true (.range s (s + 60 * k)) fetch dT rT fmtT D).dir runInfoName =
            some (runInfoJson rT (fmtT s) (fmtT (s + 60 * k))) ∧
          (download_run true (.range s (s + 60 * k)) fetch dT rT fmtT D).outcome =
            .ok (some ())) ∧
      (∀ (good : List Nat) (t0 : Nat) (bad : List Nat),
        subsetTimes s (s + 60 * k) = good ++ t0 :: bad →
          (∀ t ∈ good, (fetch t).isSome = true) → fetch t0 = none →
          (download_run true (.range s (s + 60 * k)) fetch dT rT fmtT D).requests =
              good ++ [t0] ∧
            (download_run true (.range s (s + 60 * k)) fetch dT rT fmtT D).dir
                runInfoName = none ∧
            (download_run true (.range s (s + 60 * k)) fetch dT rT fmtT D).outcome =
              .ok none) ∧
      ∀ (conf : Bool) (res : ResolveOut),
        (download_last_run conf res fetch dT rT fmtT D).dir runInfoName =
          D runInfoName := by
  refine ⟨?_, ?_, ?_⟩
  · intro hfetch
    have hloop := fetchLoop_success fetch (fun t => arome001FileName dT (fmtT t)) _ hfetch
    constructor
    · simp [download_run, hloop, writeFile]
    · simp [download_run, hloop]
  · intro good t0 bad hsplit hgood h0
    have hloop := fetchLoop_failure fetch (fun t => arome001FileName dT (fmtT t)) t0 bad
      h0 good hgood
    refine ⟨?_, ?_, ?_⟩
    · simp [download_run, hsplit, hloop]
    · have hdir : (download_run true (.range s (s + 60 * k)) fetch dT rT fmtT D).dir =
          writeFiles (good.map (fun t => (arome001FileName dT (fmtT t), (fetch t).getD [])))
            emptyDir := by
        simp [download_run, hsplit, hloop]
      rw [hdir, writeFiles_not_mem]
      · rfl
      · intro nb hnb
        obtain ⟨t, _, rfl⟩ := List.mem_map.mp hnb
        exact arome001FileName_ne_runInfo dT (fmtT t)
    · simp [download_run, hsplit, hloop]
  · intro conf res
    cases conf with
    | false => rfl
    | true =>
      cases res with
      | transportFail => rfl
      | parseCrash => rfl
      | range s2 e2 =>
        have hnames : ∀ nb ∈ (fetchLoop fetch (fun t => aromeFileName dT rT (fmtT t))
            (subsetTimes s2 e2)).2.1, nb.1 ≠ runInfoName := by
          intro nb hnb
          obtain ⟨t, ht⟩ := fetchLoop_files_names fetch _ (subsetTimes s2 e2) nb hnb
          rw [ht]
          exact aromeFileName_ne_runInfo dT rT (fmtT t)
        simp only [download_last_run]
        cases hc : (fetchLoop fetch (fun t => aromeFileName dT rT (fmtT t))
            (subsetTimes s2 e2)).2.2 <;>
          simp only [hc, Bool.false_eq_true, if_true, if_false] <;>
          exact writeFiles_not_mem _ _ _ hnames

/-- Claim C6 witness: a successful single-hour `arome001` run writes the
metadata record. -/
theorem claim6_witness :
    (download_run true (.range 0 (0 + 60 * 0)) (fun _ => some ['x']) ['d'] ['r']
        (fun _ => ['t']) emptyDir).dir runInfoName =
      some (runInfoJson ['r'] ['t'] ['t']) :=
  ((claim6_metadata 0 0 (fun _ => some ['x']) ['d'] ['r'] (fun _ => ['t']) emptyDir).1
    (fun t _ => rfl)).1

/-- Claim C8 (confirmed): on the fixed `YYYY-MM-DDTHH.MM.SSZ` format, string
(lexicographic) comparison coincides with chronological (`datetime`)
comparison, and consequently the `AromeDownloader` string-compare selection
and the `arome001_downloader` datetime-parse selection pick the same latest
run from any list of matching coverage ids. -/
theorem claim8_lex_chrono (p suf : Str) (hs : suf ≠ []) (ts : List DT)
    (hts : ∀ t ∈ ts, validDT t = true) (hne : ts ≠ []) :
    (∀ a b : DT, validDT a = true → validDT b = true →
      strLt (formatRun a) (formatRun b) = dtLt a b) ∧
      ∃ tmax : DT,
        get_last_run (some (p, suf))
            (ts.map (fun t => formatTemplate p suf (formatRun t))) =
          .ok (some (formatRun tmax)) ∧
        get_latest_run (some (p, suf))
            (ts.map (fun t => formatTemplate p suf (formatRun t))) =
          .ok (formatRun tmax) := by
  refine ⟨fun a b ha hb => strLt_formatRun (validDT_wfDT ha) (validDT_wfDT hb), ?_⟩
  have hwf : WellFormedDoc p suf (ts.map (fun t => formatTemplate p suf (formatRun t))) := by
    intro cid hc hm
    obtain ⟨t, ht, rfl⟩ := List.mem_map.mp hc
    exact ⟨t, hts t ht, pyExtract_format hs p (formatRun t)⟩
  have hM := matchedDTs_map p suf hs ts hts
  cases hT : ts with
  | nil => exact absurd hT hne
  | cons t rest =>
    subst hT
    obtain ⟨tmax, hmax⟩ := Option.isSome_iff_exists.mp (maxFold_cons_isSome t rest)
    refine ⟨tmax, ?_, ?_⟩
    · have hfold := a001Fold_eq p suf _ hwf none
      simp only [get_last_run, hfold, hM, hmax]
    · have haro := aroFold_eq p suf hs (t :: rest) hts none (fun l hl => absurd hl (by simp))
      rw [hmax] at haro
      simp only [Option.map_none', Option.map_some'] at haro
      simp only [get_latest_run, haro]
      rw [if_neg (formatRun_ne_nil tmax)]

/-- Claim C8 witness: two runs on 2024-11-17, at 15:00:00Z and 09:00:00Z;
both selection implementations pick the 15:00:00Z run. -/
theorem claim8_witness :
    get_last_run (some (['A'], ['B']))
        (([⟨2024, 11, 17, 15, 0, 0⟩, ⟨2024, 11, 17, 9, 0, 0⟩] : List DT).map
          (fun t => formatTemplate ['A'] ['B'] (formatRun t))) =
      .ok (some (formatRun ⟨2024, 11, 17, 15, 0, 0⟩)) ∧
      get_latest_run (some (['A'], ['B']))
          (([⟨2024, 11, 17, 15, 0, 0⟩, ⟨2024, 11, 17, 9, 0, 0⟩] : List DT).map
            (fun t => formatTemplate ['A'] ['B'] (formatRun t))) =
        .ok (formatRun ⟨2024, 11, 17, 15, 0, 0⟩) := by
  obtain ⟨-, tmax, h1, h2⟩ := claim8_lex_chrono ['A'] ['B'] (by decide)
    [⟨2024, 11, 17, 15, 0, 0⟩, ⟨2024, 11, 17, 9, 0, 0⟩] (by decide) (by decide)
  have hc : get_last_run (some (['A'], ['B']))
      (([⟨2024, 11, 17, 15, 0, 0⟩, ⟨2024, 11, 17, 9, 0, 0⟩] : List DT).map
        (fun t => formatTemplate ['A'] ['B'] (formatRun t))) =
      .ok (some (formatRun ⟨2024, 11, 17, 15, 0, 0⟩)) := by decide
  rw [h1] at hc
  injection hc with hc1
  injection hc1 with hc2
  exact ⟨by rw [h1, hc2], by rw [h2, hc2]⟩

example : strLt ['a', 'b'] ['a', 'c'] = true := by decide

example : formatRun ⟨2024, 11, 17, 15, 0, 0⟩ =
    ['2','0','2','4','-','1','1','-','1','7','T','1','5','.','0','0','.','0','0','Z'] := by
  decide

example : parseRun (formatRun ⟨2024, 11, 17, 15, 0, 0⟩) = some ⟨2024, 11, 17, 15, 0, 0⟩ := by
  decide

example : parseRun ['2','0','2','4','-','1','3','-','1','7','T','1','5','.','0','0','.','0','0','Z'] = none := by
  decide

end Meteo
